import Mathlib

/-!
Shallow embedding of the credit-card-tracker sync core (Rust) in Lean 4,
together with proofs about the merge/upsert engine, the reconciliation
matcher, the tabular codec and the sync orchestrator.

Modelling conventions:
- `chrono::DateTime<Utc>` is embedded as `Int` (Unix seconds, UTC); the
  ordering on timestamps is the `Int` order.
- `rust_decimal::Decimal` amounts are embedded as `Int` (minor units).
  On this subset rust_decimal's `abs`, `+` and numeric equality agree with
  the corresponding `Int` operations, and its hash agrees with numeric
  equality, so bucketing by `amount.abs()` is bucketing by `Int.natAbs`.
- `std::collections::HashMap` is embedded as an association list with
  insert-replaces-value semantics.  Iteration order of a Rust `HashMap` is
  unspecified (randomly seeded per process); where the source iterates over
  map entries we either quantify over all permutations of the entries
  (`MergeOutput`) or pick a canonical enumeration whose choice does not
  affect the stated property.
- Rust's `sort_by_key` is a stable sort; it is embedded as
  `List.insertionSort`, which is stable and hence extensionally equal to
  any stable sort for the same comparison key.
-/

set_option maxHeartbeats 1600000

namespace CCTracker

/-- Embedding of `models/transaction.rs`, `enum TransactionType`. -/
inductive TransactionType where
  | Debit
  | Credit
  deriving DecidableEq

/-- Embedding of `models/transaction.rs`, `struct Transaction`.  Timestamps
are Unix seconds (`Int`), amounts are exact decimals restricted to integer
minor units (`Int`). -/
structure Transaction where
  timestamp : Int
  description : String
  amount : Int
  currency : String
  type_ : TransactionType
  id : String
  matched_id : Option String
  comments : Option String
  deriving DecidableEq

/-- Embedding of `truelayer/types.rs`, `enum TrueLayerTransactionType`. -/
inductive TrueLayerTransactionType where
  | Debit
  | Credit
  deriving DecidableEq

/-- Embedding of `truelayer/types.rs`, `struct TrueLayerTransaction`. -/
structure TrueLayerTransaction where
  normalised_provider_transaction_id : String
  timestamp : Int
  description : String
  transaction_type : TrueLayerTransactionType
  amount : Int
  currency : String
  deriving DecidableEq

/-- Embedding of `impl From<TrueLayerTransactionType> for TransactionType`
(`models/transaction.rs`). -/
def TrueLayerTransactionType.toTransactionType : TrueLayerTransactionType → TransactionType
  | .Debit => .Debit
  | .Credit => .Credit

/-- Embedding of `impl From<TrueLayerTransaction> for Transaction`
(`models/transaction.rs`, lines 27-40). -/
def Transaction.fromTrueLayer (tl : TrueLayerTransaction) : Transaction :=
  { timestamp := tl.timestamp
    description := tl.description
    amount := tl.amount
    currency := tl.currency
    type_ := tl.transaction_type.toTransactionType
    id := tl.normalised_provider_transaction_id
    matched_id := none
    comments := none }

/-- Embedding of `models/card.rs`, `struct Provider`. -/
structure Provider where
  id : String
  name : String
  deriving DecidableEq

/-- Embedding of `models/card.rs`, `struct Card`. -/
structure Card where
  id : String
  name : String
  provider : Provider
  deriving DecidableEq

/-! ### Merge/upsert engine (`sync/engine.rs`, `SyncEngine::sync_card`) -/

/-- Timestamp comparison used by `all_transactions.sort_by_key(|t| t.timestamp)`. -/
def tsLe (a b : Transaction) : Prop := a.timestamp ≤ b.timestamp

instance : DecidableRel tsLe := fun a b => inferInstanceAs (Decidable (a.timestamp ≤ b.timestamp))

instance : IsTotal Transaction tsLe := ⟨fun a b => Int.le_total a.timestamp b.timestamp⟩

instance : IsTrans Transaction tsLe := ⟨fun _ _ _ hab hbc => le_trans hab hbc⟩

/-- Embedding of Rust's stable `sort_by_key(|t| t.timestamp)`.  A stable
sort is extensionally determined by its comparison; we use insertion sort,
which is stable. -/
def sortByTimestamp (l : List Transaction) : List Transaction :=
  List.insertionSort tsLe l

/-- One `HashMap::insert(t.id, t)` step on the association-list model:
replace the value stored under an existing key, otherwise add a new entry. -/
def upsertById (m : List (String × Transaction)) (t : Transaction) : List (String × Transaction) :=
  if m.any (fun p => p.1 = t.id) then
    m.map (fun p => if p.1 = t.id then (p.1, t) else p)
  else
    m ++ [(t.id, t)]

/-- The `transaction_map` of `SyncEngine::sync_card` (lines 85-94): seed
with `existing` keyed by id, then insert every `incoming` transaction,
overwriting on id conflict. -/
def mergeMap (existing incoming : List Transaction) : List (String × Transaction) :=
  incoming.foldl upsertById (existing.foldl upsertById [])

/-- The value set of `transaction_map` (canonical entry enumeration). -/
def mergeValues (existing incoming : List Transaction) : List Transaction :=
  (mergeMap existing incoming).map Prod.snd

/-- Canonical merge result: `transaction_map.into_values()` in the canonical
entry order, then the stable sort by timestamp (lines 96-97). -/
def merge (existing incoming : List Transaction) : List Transaction :=
  sortByTimestamp (mergeValues existing incoming)

/-- All possible merge results of `SyncEngine::sync_card`:
`HashMap::into_values` yields the entries in an unspecified order, so the
output is the stable sort of some permutation of the map's values. -/
def MergeOutput (existing incoming : List Transaction) (out : List Transaction) : Prop :=
  ∃ vs : List Transaction, vs.Perm (mergeValues existing incoming) ∧ out = sortByTimestamp vs

/-! ### Error type and orchestrator (`error.rs`, `sync/engine.rs`, `SyncEngine::sync`) -/

/-- Embedding of `error.rs`, `enum AppError` (payloads of the wrapped
foreign error types are represented by their message strings). -/
inductive AppError where
  | trueLayer (msg : String)
  | sheets (msg : String)
  | auth (msg : String)
  | config (msg : String)
  | http (msg : String)
  | serialization (msg : String)
  | io (msg : String)
  | other (msg : String)
  deriving DecidableEq

/-- Does an `AppError` use the `Config` constructor? -/
def AppError.isConfig : AppError → Bool
  | .config _ => true
  | _ => false

/-- Embedding of the card-driving part of `SyncEngine::sync` (lines 52-63):
fail with `AppError::TrueLayer("No cards found")` when the card list is
empty, otherwise sync each card in order, propagating the first error.
The per-card work is abstracted as `syncCard`. -/
def syncRun (cards : List Card) (syncCard : Card → Except AppError Unit) : Except AppError Unit :=
  if cards.isEmpty then
    .error (.trueLayer "No cards found")
  else
    cards.foldlM (fun _ c => syncCard c) ()

/-! ### Reconciliation matcher (`sync/reconcile.rs`) -/

/-- Embedding of `sync/reconcile.rs`, `struct MatchedPair`. -/
structure MatchedPair where
  debit_id : String
  credit_id : String
  deriving DecidableEq

/-- Embedding of `chrono::Duration::num_days` on a whole-second duration:
integer division by 86400 truncating toward zero. -/
def numDays (secs : Int) : Int := secs.tdiv 86400

/-- The date-window check of `reconcile_transactions` (lines 72-74):
`diff.num_days().abs() <= days as i64` for `diff = b.timestamp - a.timestamp`. -/
def withinWindow (a b : Transaction) (days : Nat) : Bool :=
  decide ((numDays (b.timestamp - a.timestamp)).natAbs ≤ days)

/-- The inner scan of `reconcile_transactions` (lines 51-85): find the first
index `j` (here starting from `j`) whose transaction passes every guard:
`j != i`, not yet consumed, a Credit, amounts summing to zero exactly, a
different id, and within the date window. -/
def findCreditAux (a : Transaction) (days : Nat) (i : Nat) (cons : List Bool) :
    Nat → List Transaction → Option (Nat × Transaction)
  | _, [] => none
  | j, b :: rest =>
    if j ≠ i ∧ cons.getD j false = false ∧ b.type_ = TransactionType.Credit ∧
        a.amount + b.amount = 0 ∧ a.id ≠ b.id ∧ withinWindow a b days = true then
      some (j, b)
    else
      findCreditAux a days i cons (j + 1) rest

/-- Scan the whole group from index 0 (the source's `for j in 0..group.len()`). -/
def findCredit (g : List Transaction) (cons : List Bool) (a : Transaction) (i : Nat)
    (days : Nat) : Option (Nat × Transaction) :=
  findCreditAux a days i cons 0 g

/-- The outer scan of `reconcile_transactions` (lines 38-86) over one sorted
group: iterate the indices `idxs`, skipping consumed entries and non-Debits;
on a successful inner scan mark both indices consumed and emit the pair. -/
def matchLoop (g : List Transaction) (days : Nat) : List Nat → List Bool → List MatchedPair
  | [], _ => []
  | i :: rest, cons =>
    match g.get? i with
    | none => matchLoop g days rest cons
    | some a =>
      if cons.getD i false then
        matchLoop g days rest cons
      else if a.type_ ≠ TransactionType.Debit then
        matchLoop g days rest cons
      else
        match findCredit g cons a i days with
        | some (j, b) =>
          ⟨a.id, b.id⟩ :: matchLoop g days rest ((cons.set i true).set j true)
        | none => matchLoop g days rest cons

/-- Process one amount bucket: sort it by timestamp (lines 32-34), then run
the greedy scan with an all-false consumed vector (lines 36-86). -/
def matchBucket (g : List Transaction) (days : Nat) : List MatchedPair :=
  let s := sortByTimestamp g
  matchLoop s days (List.range s.length) (List.replicate s.length false)

/-- First-occurrence deduplication, tracking already-seen keys. -/
def dedupKeysAux (seen : List Nat) : List Nat → List Nat
  | [] => []
  | k :: ks => if k ∈ seen then dedupKeysAux seen ks else k :: dedupKeysAux (k :: seen) ks

/-- First-occurrence deduplication of the bucket keys.  The Rust `HashMap`
iterates its buckets in an unspecified order; the properties proved below
are insensitive to the enumeration order, so we fix first-occurrence order
as the canonical one. -/
def dedupKeys (l : List Nat) : List Nat := dedupKeysAux [] l

/-- The `by_amount` grouping of `reconcile_transactions` (lines 23-28): one
bucket per distinct `abs(amount)` key, each bucket listing the candidates
with that key in candidate order (`entry().or_default().push`). -/
def buckets (l : List Transaction) : List (List Transaction) :=
  (dedupKeys (l.map (fun t => t.amount.natAbs))).map
    (fun k => l.filter (fun t => t.amount.natAbs = k))

/-- Concatenate the per-bucket matches (the source pushes every pair into
one `matches` vector while looping over the buckets). -/
def reconcileBuckets (days : Nat) : List (List Transaction) → List MatchedPair
  | [] => []
  | g :: gs => matchBucket g days ++ reconcileBuckets days gs

/-- Embedding of `reconcile_transactions` (lines 16-90): keep the
unreconciled candidates (line 18-21), bucket them by absolute amount and
greedily match each bucket. -/
def reconcile_transactions (txs : List Transaction) (days : Nat) : List MatchedPair :=
  reconcileBuckets days (buckets (txs.filter (fun t => t.matched_id.isNone)))

/-- The ids mentioned by a list of matched pairs, in order. -/
def pairsIds : List MatchedPair → List String
  | [] => []
  | p :: ps => p.debit_id :: p.credit_id :: pairsIds ps

/-! ### Column letters (`models/transaction.rs`, `index_to_column_letter`) -/

/-! ### Tabular codec (`models/transaction.rs`, `FromSheetRows`/`ToSheetRows`)

The codec exchanges `serde_json::Value` cells with the sheets client.  For
this struct every serialized field is a JSON string (chrono and
rust_decimal serialize to strings, `TransactionType` to its tag) and every
absent optional field is JSON null, so cells are embedded as strings or
null.  The chrono RFC-3339 and rust_decimal renderings are injective, never
empty, and exactly inverted by the corresponding deserializers; on our
`Int`-valued embedding of timestamps and amounts they are embedded as the
decimal integer rendering `renderInt`, which has the same three properties.
-/

/-- A JSON cell value as exchanged with the sheet. -/
inductive JValue where
  | null
  | str (s : String)
  deriving DecidableEq

/-- The digit character for `d < 10`. -/
def digitChar (d : Nat) : Char := Char.ofNat (48 + d)

/-- Decimal rendering of a natural number in front of `acc`. -/
def renderNatAux : Nat → List Char → List Char
  | n, acc =>
    if n < 10 then digitChar n :: acc
    else renderNatAux (n / 10) (digitChar (n % 10) :: acc)
  termination_by n _ => n
  decreasing_by
    have hlt : n / 10 < n := Nat.div_lt_self (by omega) (by omega)
    omega

/-- Numeric value of a digit character. -/
def digitVal (c : Char) : Option Nat :=
  if 48 ≤ c.toNat ∧ c.toNat ≤ 57 then some (c.toNat - 48) else none

/-- Parse a digit sequence, accumulating into `acc`. -/
def parseNatAux : List Char → Nat → Option Nat
  | [], acc => some acc
  | c :: cs, acc =>
    match digitVal c with
    | some d => parseNatAux cs (10 * acc + d)
    | none => none

/-- Parse a non-empty digit sequence. -/
def parseNatChars : List Char → Option Nat
  | [] => none
  | cs => parseNatAux cs 0

/-- Decimal rendering of an integer. -/
def renderInt (i : Int) : String :=
  if i < 0 then String.mk ('-' :: renderNatAux i.natAbs [])
  else String.mk (renderNatAux i.natAbs [])

/-- Parse the decimal rendering of an integer. -/
def parseInt (s : String) : Option Int :=
  match s.data with
  | [] => none
  | c :: cs =>
    if c = '-' then (parseNatChars cs).map (fun n : Nat => -(n : Int))
    else (parseNatChars (c :: cs)).map (fun n : Nat => (n : Int))

/-- Serialized tag of a `TransactionType` (serde's `Debit`/`Credit`). -/
def renderType : TransactionType → String
  | .Debit => "Debit"
  | .Credit => "Credit"

/-- Deserialize a `TransactionType` tag. -/
def parseType (s : String) : Option TransactionType :=
  if s = "Debit" then some .Debit
  else if s = "Credit" then some .Credit
  else none

/-- Serialization of an `Option<String>` field: `None` is JSON null. -/
def optValue : Option String → JValue
  | none => .null
  | some s => .str s

/-- The fixed serialized field names of `Transaction`
(`Transaction::get_field_names`; the list is pinned by the serde renames
and checked by the source's tests). -/
def field_names : List String :=
  ["Timestamp", "Description", "Amount", "Currency", "Type", "ID", "Matched ID", "Comments"]

/-- The `serde_json::to_value` object of a `Transaction`, as an ordered
name/value list. -/
def Transaction.toObj (t : Transaction) : List (String × JValue) :=
  [("Timestamp", .str (renderInt t.timestamp)),
   ("Description", .str t.description),
   ("Amount", .str (renderInt t.amount)),
   ("Currency", .str t.currency),
   ("Type", .str (renderType t.type_)),
   ("ID", .str t.id),
   ("Matched ID", optValue t.matched_id),
   ("Comments", optValue t.comments)]

/-- Lookup in a JSON object (`serde_json::Map::get`). -/
def getField (m : List (String × JValue)) (k : String) : Option JValue :=
  (m.find? (fun p => p.1 = k)).map Prod.snd

/-- One data row of `to_sheet_rows` (lines 158-169): extract each field by
its serialized name, absent fields becoming null. -/
def encodeRow (t : Transaction) : List JValue :=
  field_names.map (fun h => (getField t.toObj h).getD .null)

/-- Embedding of `<[Transaction]>::to_sheet_rows` (lines 152-177): a header
row followed by one row per transaction.  The source's error path would
require `serde_json::to_value` to fail on this struct, which cannot happen,
so the embedding is total. -/
def to_sheet_rows (ts : List Transaction) : List (List JValue) :=
  (field_names.map JValue.str) :: ts.map encodeRow

/-- Embedding of `Transaction::normalize_sheet_value` (lines 107-112): an
empty string cell is normalized to null. -/
def normalize_sheet_value : JValue → JValue
  | .str s => if s = "" then .null else .str s
  | v => v

/-- Embedding of `Transaction::value_to_string` (lines 100-105). -/
def value_to_string : JValue → String
  | .str s => s
  | .null => "null"

/-- One `serde_json::Map` insertion: a later duplicate key overwrites. -/
def insertKV (m : List (String × JValue)) (p : String × JValue) : List (String × JValue) :=
  if m.any (fun q => q.1 = p.1) then
    m.map (fun q => if q.1 = p.1 then (q.1, p.2) else q)
  else
    m ++ [p]

/-- Collect header/value pairs into a JSON object (`collect::<Map<_, _>>`). -/
def buildMap (ps : List (String × JValue)) : List (String × JValue) :=
  ps.foldl insertKV []

/-- Serde deserialization of a required `String` field. -/
def decodeReqString (v : Option JValue) : Except String String :=
  match v with
  | some (.str s) => .ok s
  | _ => .error "invalid string field"

/-- Serde deserialization of an `Option<String>` field (`#[serde(default)]`):
missing or null is `None`. -/
def decodeOptString (v : Option JValue) : Except String (Option String) :=
  match v with
  | none => .ok none
  | some .null => .ok none
  | some (.str s) => .ok (some s)

/-- Serde deserialization of the timestamp field (a datetime string). -/
def decodeTimestamp (v : Option JValue) : Except String Int :=
  match v with
  | some (.str s) =>
    match parseInt s with
    | some t => .ok t
    | none => .error "invalid timestamp"
  | _ => .error "invalid timestamp field"

/-- Serde deserialization of the amount field (a decimal string). -/
def decodeAmount (v : Option JValue) : Except String Int :=
  match v with
  | some (.str s) =>
    match parseInt s with
    | some a => .ok a
    | none => .error "invalid decimal"
  | _ => .error "invalid decimal field"

/-- Serde deserialization of the type field (a `Debit`/`Credit` tag). -/
def decodeType (v : Option JValue) : Except String TransactionType :=
  match v with
  | some (.str s) =>
    match parseType s with
    | some ty => .ok ty
    | none => .error "invalid type tag"
  | _ => .error "invalid type field"

/-- Serde deserialization of a `Transaction` from a JSON object
(`serde_json::from_value` under the struct's field attributes). -/
def transactionFromObj (m : List (String × JValue)) : Except String Transaction := do
  let timestamp ← decodeTimestamp (getField m "Timestamp")
  let description ← decodeReqString (getField m "Description")
  let amount ← decodeAmount (getField m "Amount")
  let currency ← decodeReqString (getField m "Currency")
  let type_ ← decodeType (getField m "Type")
  let id ← decodeReqString (getField m "ID")
  let matched_id ← decodeOptString (getField m "Matched ID")
  let comments ← decodeOptString (getField m "Comments")
  return { timestamp, description, amount, currency, type_, id, matched_id, comments }

/-- Decode one data row of `from_sheet_rows` (lines 137-147): zip the
headers with the row, normalize every cell, collect into an object and
deserialize.  The source's row-indexed error message is carried abstractly. -/
def decodeRow (headers : List String) (row : List JValue) : Except String Transaction :=
  transactionFromObj (buildMap ((headers.zip row).map
    (fun p => (p.1, normalize_sheet_value p.2))))

/-- Embedding of `Transaction::from_sheet_rows` (lines 125-149): empty
input decodes to no transactions; otherwise the first row provides the
headers and every following row is decoded, the first failure aborting. -/
def from_sheet_rows (rows : List (List JValue)) : Except String (List Transaction) :=
  match rows with
  | [] => .ok []
  | header :: data => data.mapM (decodeRow (header.map value_to_string))

/-- A transaction whose string-valued fields survive the sheet's
empty-cell normalization: no required string field is empty and no
optional field is present-but-empty. -/
def GoodTx (t : Transaction) : Prop :=
  t.description ≠ "" ∧ t.currency ≠ "" ∧ t.id ≠ "" ∧
    t.matched_id ≠ some "" ∧ t.comments ≠ some ""

instance (t : Transaction) : Decidable (GoodTx t) := by
  unfold GoodTx
  infer_instance

/-- Embedding of `Transaction::index_to_column_letter` (lines 88-98). -/
def index_to_column_letter (col_idx : Nat) : String :=
  let remainder := col_idx % 26
  let c : Char := Char.ofNat (65 + remainder)
  if col_idx < 26 then
    String.mk [c]
  else
    index_to_column_letter (col_idx / 26 - 1) ++ String.mk [c]
  termination_by col_idx
  decreasing_by
    have hlt : col_idx / 26 < col_idx :=
      Nat.div_lt_self (by omega) (by omega)
    omega

/-! ### Concrete values used by witnesses and counterexamples -/

/-- An existing sheet transaction carrying reconciliation state. -/
def txPrior : Transaction :=
  { timestamp := 100, description := "coffee", amount := -450, currency := "GBP",
    type_ := .Debit, id := "tx_1", matched_id := some "tx_9", comments := some "checked" }

/-- A freshly fetched copy of `txPrior` (same id, updated description);
like every converted TrueLayer transaction it has no reconciliation state. -/
def txFresh : Transaction :=
  { timestamp := 100, description := "coffee updated", amount := -450, currency := "GBP",
    type_ := .Debit, id := "tx_1", matched_id := none, comments := none }

/-- A historical transaction outside the fetch window. -/
def txOld : Transaction :=
  { timestamp := 10, description := "old", amount := -100, currency := "GBP",
    type_ := .Debit, id := "tx_old", matched_id := none, comments := none }

/-- Two transactions with equal timestamps and distinct ids. -/
def txTieA : Transaction :=
  { timestamp := 50, description := "tie a", amount := -100, currency := "GBP",
    type_ := .Debit, id := "tie_a", matched_id := none, comments := none }

/-- Second transaction of the timestamp tie. -/
def txTieB : Transaction :=
  { timestamp := 50, description := "tie b", amount := -200, currency := "GBP",
    type_ := .Debit, id := "tie_b", matched_id := none, comments := none }

/-- A well-formed debit used by the reconciliation witnesses. -/
def txDebitW : Transaction :=
  { timestamp := 0, description := "debit", amount := -5000, currency := "GBP",
    type_ := .Debit, id := "tx_debit", matched_id := none, comments := none }

/-- A credit matching `txDebitW` exactly `3` days later. -/
def txCreditW : Transaction :=
  { timestamp := 259200, description := "credit", amount := 5000, currency := "GBP",
    type_ := .Credit, id := "tx_credit", matched_id := none, comments := none }

/-- A competing credit matching `txDebitW` five days later. -/
def txCreditLate : Transaction :=
  { timestamp := 432000, description := "credit late", amount := 5000, currency := "GBP",
    type_ := .Credit, id := "tx_credit_late", matched_id := none, comments := none }

/-- A transaction whose description is the empty string; its encoded row
normalizes the description cell to null, so it fails to decode. -/
def txEmptyDesc : Transaction :=
  { timestamp := 0, description := "", amount := -450, currency := "GBP",
    type_ := .Debit, id := "tx_empty", matched_id := none, comments := none }

/-- A transaction satisfying `GoodTx`, used by the codec witness. -/
def txGood : Transaction :=
  { timestamp := 1700000000, description := "mock transaction", amount := -1234,
    currency := "GBP", type_ := .Debit, id := "tx_123",
    matched_id := some "tx_456", comments := some "manually added" }

/-- A concrete card for the orchestrator witness. -/
def cardW : Card :=
  { id := "acc_123", name := "Amex Card", provider := { id := "amex", name := "American Express" } }

/-! ## Lemmas about the upsert map -/

theorem upsertById_mem_of_ne {m : List (String × Transaction)} {p : String × Transaction}
    (t : Transaction) (hp : p ∈ m) (hne : p.1 ≠ t.id) : p ∈ upsertById m t := by
  unfold upsertById
  split
  · exact List.mem_map.2 ⟨p, hp, by simp [hne]⟩
  · exact List.mem_append_left _ hp

theorem upsertById_self_mem (m : List (String × Transaction)) (t : Transaction) :
    (t.id, t) ∈ upsertById m t := by
  unfold upsertById
  split
  · rename_i h
    obtain ⟨q, hq, hq1⟩ := List.any_eq_true.1 h
    refine List.mem_map.2 ⟨q, hq, ?_⟩
    simp only [decide_eq_true_eq] at hq1
    simp [hq1]
  · exact List.mem_append_right _ (by simp)

theorem upsertById_key_inv {m : List (String × Transaction)} (t : Transaction)
    (h : ∀ p ∈ m, p.1 = p.2.id) : ∀ p ∈ upsertById m t, p.1 = p.2.id := by
  intro p hp
  unfold upsertById at hp
  split at hp
  · obtain ⟨q, hq, hqe⟩ := List.mem_map.1 hp
    by_cases hc : q.1 = t.id
    · rw [if_pos hc] at hqe
      rw [← hqe]
      exact hc
    · rw [if_neg hc] at hqe
      exact hqe ▸ h q hq
  · rcases List.mem_append.1 hp with hm | hm
    · exact h p hm
    · simp only [List.mem_singleton] at hm
      simp [hm]

theorem upsertById_keys_nodup {m : List (String × Transaction)} (t : Transaction)
    (h : (m.map Prod.fst).Nodup) : ((upsertById m t).map Prod.fst).Nodup := by
  unfold upsertById
  split
  · have : (m.map (fun p => if p.1 = t.id then (p.1, t) else p)).map Prod.fst
        = m.map Prod.fst := by
      rw [List.map_map]
      refine List.map_congr_left ?_
      intro p _
      by_cases hc : p.1 = t.id <;> simp [hc]
    rw [this]
    exact h
  · rename_i hno
    have hnot : t.id ∉ m.map Prod.fst := by
      intro hm
      obtain ⟨q, hq, hq1⟩ := List.mem_map.1 hm
      exact hno (List.any_eq_true.2 ⟨q, hq, by simp [hq1]⟩)
    simp only [List.map_append, List.map_cons, List.map_nil]
    exact List.Nodup.append h (List.nodup_singleton _) (by simpa using hnot)

theorem foldl_upsert_mem {l : List Transaction} :
    ∀ {m : List (String × Transaction)} {p : String × Transaction},
      p ∈ m → p.1 ∉ l.map (fun t => t.id) → p ∈ l.foldl upsertById m := by
  induction l with
  | nil => intro m p hp _; simpa using hp
  | cons u rest ih =>
    intro m p hp hni
    simp only [List.map_cons, List.mem_cons, not_or] at hni
    exact ih (upsertById_mem_of_ne u hp hni.1) hni.2

theorem foldl_upsert_key_inv {l : List Transaction} :
    ∀ {m : List (String × Transaction)}, (∀ p ∈ m, p.1 = p.2.id) →
      ∀ p ∈ l.foldl upsertById m, p.1 = p.2.id := by
  induction l with
  | nil => intro m hm; simpa using hm
  | cons u rest ih =>
    intro m hm
    exact ih (upsertById_key_inv u hm)

theorem foldl_upsert_keys_nodup {l : List Transaction} :
    ∀ {m : List (String × Transaction)}, (m.map Prod.fst).Nodup →
      ((l.foldl upsertById m).map Prod.fst).Nodup := by
  induction l with
  | nil => intro m hm; simpa using hm
  | cons u rest ih =>
    intro m hm
    exact ih (upsertById_keys_nodup u hm)

theorem foldl_upsert_incoming {l : List Transaction} :
    ∀ {m : List (String × Transaction)} {t : Transaction},
      t ∈ l → (l.map (fun t => t.id)).Nodup → (t.id, t) ∈ l.foldl upsertById m := by
  induction l with
  | nil => intro _ _ h; simp at h
  | cons u rest ih =>
    intro m t ht hnd
    simp only [List.map_cons, List.nodup_cons] at hnd
    simp only [List.foldl_cons]
    rcases List.mem_cons.1 ht with heq | hm
    · subst heq
      exact foldl_upsert_mem (upsertById_self_mem m t) hnd.1
    · exact ih hm hnd.2

theorem keys_nodup_inj {m : List (String × Transaction)} (h : (m.map Prod.fst).Nodup) :
    ∀ p ∈ m, ∀ q ∈ m, p.1 = q.1 → p = q := by
  induction m with
  | nil => simp
  | cons a rest ih =>
    simp only [List.map_cons, List.nodup_cons] at h
    intro p hp q hq heq
    rcases List.mem_cons.1 hp with hp1 | hp1 <;> rcases List.mem_cons.1 hq with hq1 | hq1
    · rw [hp1, hq1]
    · subst hp1
      exact absurd (by rw [heq]; exact List.mem_map_of_mem Prod.fst hq1) h.1
    · subst hq1
      exact absurd (by rw [← heq]; exact List.mem_map_of_mem Prod.fst hp1) h.1
    · exact ih h.2 p hp1 q hq1 heq

theorem mergeMap_key_inv (e i : List Transaction) :
    ∀ p ∈ mergeMap e i, p.1 = p.2.id :=
  foldl_upsert_key_inv (foldl_upsert_key_inv (by simp))

theorem mergeMap_keys_nodup (e i : List Transaction) :
    ((mergeMap e i).map Prod.fst).Nodup :=
  foldl_upsert_keys_nodup (foldl_upsert_keys_nodup (by simp))

theorem mem_sortByTimestamp {l : List Transaction} {t : Transaction} :
    t ∈ sortByTimestamp l ↔ t ∈ l := by
  unfold sortByTimestamp
  exact (List.perm_insertionSort tsLe l).mem_iff

/-! ## C2: history preservation -/

/-- C2: every existing transaction whose id does not occur among the
incoming ids appears unchanged in every possible merge output; nothing is
silently deleted. -/
theorem merge_preserves_history (e i : List Transaction) (t : Transaction)
    (he : (e.map (fun t => t.id)).Nodup) (ht : t ∈ e)
    (hni : t.id ∉ i.map (fun t => t.id)) :
    ∀ out, MergeOutput e i out → t ∈ out := by
  intro out hout
  obtain ⟨vs, hperm, rfl⟩ := hout
  have hpair : (t.id, t) ∈ mergeMap e i :=
    foldl_upsert_mem (foldl_upsert_incoming ht he) hni
  have hval : t ∈ mergeValues e i := by
    unfold mergeValues
    exact List.mem_map.2 ⟨(t.id, t), hpair, rfl⟩
  exact mem_sortByTimestamp.2 (hperm.mem_iff.2 hval)

/-- C2 witness: a transaction outside the fetch window survives a concrete
merge. -/
theorem merge_preserves_history_witness :
    (([txOld, txPrior].map (fun t => t.id)).Nodup ∧ txOld ∈ [txOld, txPrior] ∧
        txOld.id ∉ [txFresh].map (fun t => t.id)) ∧
      txOld ∈ merge [txOld, txPrior] [txFresh] :=
  ⟨⟨by decide, by decide, by decide⟩,
    merge_preserves_history [txOld, txPrior] [txFresh] txOld (by decide) (by decide)
      (by decide) (merge [txOld, txPrior] [txFresh])
      ⟨mergeValues [txOld, txPrior] [txFresh], List.Perm.refl _, rfl⟩⟩

/-! ## C1: the upsert is a full replace, reconciliation state is lost -/

/-- C1 counterexample: merging a fresh copy (same id, `matched_id` and
`comments` both `None`) over a prior transaction with reconciliation state
yields exactly the fresh copy; the prior `matched_id`/`comments` are gone. -/
theorem merge_drops_matched_id_cex :
    merge [txPrior] [txFresh] = [txFresh] ∧ txFresh.id = txPrior.id ∧
      txPrior.matched_id = some "tx_9" ∧ txPrior.comments = some "checked" ∧
      txFresh.matched_id = none ∧ txFresh.comments = none := by
  decide

/-- C1 amended: on an id collision the incoming transaction fully replaces
the existing one, so the merged transaction for that id carries the
incoming `matched_id`/`comments` (that is, `None` for freshly fetched
transactions); the prior values are not preserved. -/
theorem merge_incoming_wins (e i : List Transaction) (t : Transaction)
    (hi : (i.map (fun t => t.id)).Nodup) (ht : t ∈ i) :
    ∀ out, MergeOutput e i out → t ∈ out ∧ ∀ u ∈ out, u.id = t.id → u = t := by
  intro out hout
  obtain ⟨vs, hperm, rfl⟩ := hout
  have hpair : (t.id, t) ∈ mergeMap e i := foldl_upsert_incoming ht hi
  constructor
  · refine mem_sortByTimestamp.2 (hperm.mem_iff.2 ?_)
    exact List.mem_map.2 ⟨(t.id, t), hpair, rfl⟩
  · intro u hu hid
    have hu2 : u ∈ mergeValues e i :=
      hperm.mem_iff.1 (mem_sortByTimestamp.1 hu)
    obtain ⟨p, hp, hpe⟩ := List.mem_map.1 hu2
    have hkey : p.1 = t.id := by
      rw [mergeMap_key_inv e i p hp, hpe, hid]
    have := keys_nodup_inj (mergeMap_keys_nodup e i) p hp (t.id, t) hpair hkey
    rw [← hpe, this]

/-- C1 amended witness: the concrete fresh transaction replaces the prior
one wholesale. -/
theorem merge_incoming_wins_witness :
    (([txFresh].map (fun t => t.id)).Nodup ∧ txFresh ∈ [txFresh]) ∧
      txFresh ∈ merge [txPrior] [txFresh] ∧
        ∀ u ∈ merge [txPrior] [txFresh], u.id = txFresh.id → u = txFresh :=
  ⟨⟨by decide, by decide⟩,
    merge_incoming_wins [txPrior] [txFresh] txFresh (by decide) (by decide)
      (merge [txPrior] [txFresh])
      ⟨mergeValues [txPrior] [txFresh], List.Perm.refl _, rfl⟩⟩

/-! ## C3: sortedness holds, deterministic tie order does not -/

/-- C3 counterexample: with two equal-timestamp transactions the merge can
output them in either order, because `HashMap::into_values` enumerates the
entries in an unspecified order and the stable sort keeps whatever order it
is handed; the output sequence is not determined by insertion/original
order. -/
theorem merge_tie_order_nondeterministic_cex :
    MergeOutput [txTieA, txTieB] [] [txTieA, txTieB] ∧
      MergeOutput [txTieA, txTieB] [] [txTieB, txTieA] ∧
      txTieA.timestamp = txTieB.timestamp ∧
      ([txTieA, txTieB] : List Transaction) ≠ [txTieB, txTieA] :=
  ⟨⟨[txTieA, txTieB], by decide, by decide⟩,
    ⟨[txTieB, txTieA], by decide, by decide⟩, by decide, by decide⟩

/-- C3 amended: every possible merge output is sorted in non-decreasing
timestamp order (the sort itself is stable), but the order of
equal-timestamp transactions depends on the unspecified hash-map value
order, so it is not tied to insertion/original order. -/
theorem merge_output_sorted (e i : List Transaction) :
    ∀ out, MergeOutput e i out → List.Sorted tsLe out := by
  intro out hout
  obtain ⟨vs, _, rfl⟩ := hout
  exact List.sorted_insertionSort tsLe vs

/-- C3 amended witness: a concrete merge output is sorted. -/
theorem merge_output_sorted_witness :
    MergeOutput [txPrior] [txOld] (merge [txPrior] [txOld]) ∧
      List.Sorted tsLe (merge [txPrior] [txOld]) :=
  ⟨⟨mergeValues [txPrior] [txOld], List.Perm.refl _, rfl⟩,
    merge_output_sorted [txPrior] [txOld] (merge [txPrior] [txOld])
      ⟨mergeValues [txPrior] [txOld], List.Perm.refl _, rfl⟩⟩

/-! ## C9: the zero-cards error is a TrueLayer error, not a Config error -/

/-- C9 counterexample: with zero cards the run fails with
`AppError::TrueLayer("No cards found")`, and that error is not the
`Config` variant. -/
theorem sync_no_cards_error_cex :
    syncRun [] (fun _ => .ok ()) = .error (.trueLayer "No cards found") ∧
      (AppError.trueLayer "No cards found").isConfig = false :=
  ⟨rfl, rfl⟩

/-- C9 amended: with zero cards the run fails with the fatal error
`AppError::TrueLayer("No cards found")` before any card is processed; with
at least one card that guard does not fire and the run is the sequential
fold of the per-card syncs. -/
theorem sync_no_cards_truelayer_error (f : Card → Except AppError Unit)
    (cards : List Card) :
    syncRun [] f = .error (.trueLayer "No cards found") ∧
      (cards ≠ [] → syncRun cards f = cards.foldlM (fun _ c => f c) ()) := by
  constructor
  · rfl
  · intro h
    unfold syncRun
    rw [if_neg]
    simpa using h

/-- C9 amended witness: a singleton card list is processed normally. -/
theorem sync_no_cards_truelayer_error_witness :
    ([cardW] : List Card) ≠ [] ∧
      syncRun [cardW] (fun _ => .ok ()) =
        ([cardW].foldlM (fun _ c => (fun _ => (Except.ok () : Except AppError Unit)) c) ()) :=
  ⟨by decide, (sync_no_cards_truelayer_error (fun _ => .ok ()) [cardW]).2 (by decide)⟩

/-! ## C10: TrueLayer conversions never carry reconciliation state -/

/-- C10: converting any TrueLayer transaction yields `matched_id = None`
and `comments = None`. -/
theorem fromTrueLayer_no_reconciliation_state (tl : TrueLayerTransaction) :
    (Transaction.fromTrueLayer tl).matched_id = none ∧
      (Transaction.fromTrueLayer tl).comments = none :=
  ⟨rfl, rfl⟩

/-! ## C5: spreadsheet column letters -/

/-- C5: the column letter of index `i` is the letter `A + i % 26`, prefixed
recursively with the letter of `i / 26 - 1` once `i ≥ 26`; in particular
`0 ↦ A`, `25 ↦ Z`, `26 ↦ AA`, `701 ↦ ZZ`, `702 ↦ AAA`. -/
theorem index_to_column_letter_spec :
    (∀ j : Nat, j < 26 → index_to_column_letter j = String.mk [Char.ofNat (65 + j % 26)]) ∧
      (∀ j : Nat, 26 ≤ j →
        index_to_column_letter j =
          index_to_column_letter (j / 26 - 1) ++ String.mk [Char.ofNat (65 + j % 26)]) ∧
      index_to_column_letter 0 = "A" ∧ index_to_column_letter 25 = "Z" ∧
      index_to_column_letter 26 = "AA" ∧ index_to_column_letter 701 = "ZZ" ∧
      index_to_column_letter 702 = "AAA" := by
  have h1 : ∀ j : Nat, j < 26 →
      index_to_column_letter j = String.mk [Char.ofNat (65 + j % 26)] := by
    intro j hj
    rw [index_to_column_letter]
    simp [hj]
  have h2 : ∀ j : Nat, 26 ≤ j →
      index_to_column_letter j =
        index_to_column_letter (j / 26 - 1) ++ String.mk [Char.ofNat (65 + j % 26)] := by
    intro j hj
    rw [index_to_column_letter]
    simp [Nat.not_lt.2 hj]
  refine ⟨h1, h2, ?_, ?_, ?_, ?_, ?_⟩
  · rw [h1 0 (by omega)]
  · rw [h1 25 (by omega)]
  · rw [h2 26 (by omega)]
    norm_num
    rw [h1 0 (by omega)]
    decide
  · rw [h2 701 (by omega)]
    norm_num
    rw [h1 25 (by omega)]
    decide
  · rw [h2 702 (by omega)]
    norm_num
    rw [h2 26 (by omega)]
    norm_num
    rw [h1 0 (by omega)]
    decide

/-- C5 witness: the recursive clause applied at index 27 yields "AB". -/
theorem index_to_column_letter_spec_witness :
    (26 : Nat) ≤ 27 ∧
      index_to_column_letter 27 =
        index_to_column_letter (27 / 26 - 1) ++ String.mk [Char.ofNat (65 + 27 % 26)] :=
  ⟨by decide, index_to_column_letter_spec.2.1 27 (by decide)⟩

/-! ## Codec lemmas: the integer rendering round-trips -/

theorem digitVal_digitChar : ∀ d : Nat, d < 10 → digitVal (digitChar d) = some d := by
  decide

theorem digitChar_ne_dash : ∀ d : Nat, d < 10 → digitChar d ≠ Char.ofNat 45 := by
  decide

theorem stringMk_cons_ne_empty (c : Char) (l : List Char) : String.mk (c :: l) ≠ "" := by
  intro h
  have hd : (String.mk (c :: l)).data = ("" : String).data := by rw [h]
  exact absurd hd (by simp)

theorem renderNatAux_shape (n : Nat) :
    ∀ rest, ∃ d tail, renderNatAux n rest = digitChar d :: tail ∧ d < 10 := by
  induction n using Nat.strong_induction_on with
  | _ n ih =>
    intro rest
    by_cases h : n < 10
    · exact ⟨n, rest, by rw [renderNatAux, if_pos h], h⟩
    · obtain ⟨d, tail, hd, hlt⟩ :=
        ih (n / 10) (Nat.div_lt_self (by omega) (by omega)) (digitChar (n % 10) :: rest)
      exact ⟨d, tail, by rw [renderNatAux, if_neg h, hd], hlt⟩

theorem parseNatAux_renderNatAux (n : Nat) :
    ∀ acc rest, ∃ k : Nat,
      parseNatAux (renderNatAux n rest) acc = parseNatAux rest (acc * 10 ^ k + n) := by
  induction n using Nat.strong_induction_on with
  | _ n ih =>
    intro acc rest
    by_cases h : n < 10
    · refine ⟨1, ?_⟩
      rw [renderNatAux, if_pos h]
      show parseNatAux (digitChar n :: rest) acc = _
      rw [parseNatAux, digitVal_digitChar n h]
      show parseNatAux rest (10 * acc + n) = parseNatAux rest (acc * 10 ^ 1 + n)
      congr 1
      ring
    · obtain ⟨k, hk⟩ :=
        ih (n / 10) (Nat.div_lt_self (by omega) (by omega)) acc (digitChar (n % 10) :: rest)
      refine ⟨k + 1, ?_⟩
      rw [renderNatAux, if_neg h, hk, parseNatAux,
        digitVal_digitChar (n % 10) (Nat.mod_lt n (by omega))]
      show parseNatAux rest (10 * (acc * 10 ^ k + n / 10) + n % 10) = _
      have hr : acc * 10 ^ (k + 1) = 10 * (acc * 10 ^ k) := by ring
      rw [hr]
      congr 1
      generalize acc * 10 ^ k = m
      omega

theorem parseNatChars_renderNatAux (n : Nat) :
    parseNatChars (renderNatAux n []) = some n := by
  obtain ⟨d, tail, hshape, _⟩ := renderNatAux_shape n []
  obtain ⟨k, hk⟩ := parseNatAux_renderNatAux n 0 []
  rw [hshape] at hk ⊢
  show parseNatAux (digitChar d :: tail) 0 = some n
  rw [hk]
  simp [parseNatAux]

theorem parseInt_renderInt (i : Int) : parseInt (renderInt i) = some i := by
  obtain ⟨d, tail, hshape, hlt⟩ := renderNatAux_shape i.natAbs []
  by_cases h : i < 0
  · rw [renderInt, if_pos h]
    show (if ('-' : Char) = '-' then
        (parseNatChars (renderNatAux i.natAbs [])).map (fun n : Nat => -(n : Int))
      else (parseNatChars ('-' :: renderNatAux i.natAbs [])).map (fun n : Nat => (n : Int)))
        = some i
    rw [if_pos rfl, parseNatChars_renderNatAux]
    show some (-(i.natAbs : Int)) = some i
    congr 1
    omega
  · rw [renderInt, if_neg h, hshape]
    show (if digitChar d = '-' then
        (parseNatChars tail).map (fun n : Nat => -(n : Int))
      else (parseNatChars (digitChar d :: tail)).map (fun n : Nat => (n : Int)))
        = some i
    have hdash : digitChar d ≠ '-' := digitChar_ne_dash d hlt
    rw [if_neg hdash, ← hshape, parseNatChars_renderNatAux]
    show some ((i.natAbs : Int)) = some i
    congr 1
    omega

theorem renderInt_ne_empty (i : Int) : renderInt i ≠ "" := by
  obtain ⟨d, tail, hshape, _⟩ := renderNatAux_shape i.natAbs []
  rw [renderInt]
  by_cases h : i < 0
  · rw [if_pos h]
    exact stringMk_cons_ne_empty _ _
  · rw [if_neg h, hshape]
    exact stringMk_cons_ne_empty _ _

/-! ## Codec composition lemmas -/

theorem encodeRow_eq (t : Transaction) :
    encodeRow t = [.str (renderInt t.timestamp), .str t.description,
      .str (renderInt t.amount), .str t.currency, .str (renderType t.type_),
      .str t.id, optValue t.matched_id, optValue t.comments] := rfl

theorem buildMap_toObj (t : Transaction) : buildMap t.toObj = t.toObj := rfl

theorem normalize_str {s : String} (h : s ≠ "") :
    normalize_sheet_value (.str s) = .str s := by
  simp [normalize_sheet_value, h]

theorem normalize_optValue {o : Option String} (h : o ≠ some "") :
    normalize_sheet_value (optValue o) = optValue o := by
  cases o with
  | none => rfl
  | some s =>
    have hs : s ≠ "" := fun hs => h (by rw [hs])
    simp [optValue, normalize_sheet_value, hs]

theorem normalized_encodeRow (t : Transaction) (h : GoodTx t) :
    (field_names.zip (encodeRow t)).map (fun p => (p.1, normalize_sheet_value p.2))
      = t.toObj := by
  obtain ⟨h1, h2, h3, h4, h5⟩ := h
  have hts := renderInt_ne_empty t.timestamp
  have ham := renderInt_ne_empty t.amount
  have hty : renderType t.type_ ≠ "" := by cases t.type_ <;> simp [renderType]
  rw [encodeRow_eq]
  show [("Timestamp", normalize_sheet_value (.str (renderInt t.timestamp))),
      ("Description", normalize_sheet_value (.str t.description)),
      ("Amount", normalize_sheet_value (.str (renderInt t.amount))),
      ("Currency", normalize_sheet_value (.str t.currency)),
      ("Type", normalize_sheet_value (.str (renderType t.type_))),
      ("ID", normalize_sheet_value (.str t.id)),
      ("Matched ID", normalize_sheet_value (optValue t.matched_id)),
      ("Comments", normalize_sheet_value (optValue t.comments))] = t.toObj
  rw [normalize_str hts, normalize_str h1, normalize_str ham, normalize_str h2,
    normalize_str hty, normalize_str h3, normalize_optValue h4, normalize_optValue h5]
  rfl

theorem decodeType_renderType (ty : TransactionType) :
    decodeType (some (.str (renderType ty))) = .ok ty := by
  cases ty <;> rfl

theorem decodeOptString_optValue (o : Option String) :
    decodeOptString (some (optValue o)) = .ok o := by
  cases o <;> rfl

theorem exceptOk_bind {A B : Type} (a : A) (f : A → Except String B) :
    (Except.ok a >>= f) = f a := rfl

theorem exceptError_bind {A B : Type} (e : String) (f : A → Except String B) :
    ((Except.error e : Except String A) >>= f) = Except.error e := rfl

theorem transactionFromObj_toObj (t : Transaction) :
    transactionFromObj t.toObj = .ok t := by
  have e1 : decodeTimestamp (getField t.toObj "Timestamp") = .ok t.timestamp := by
    show (match parseInt (renderInt t.timestamp) with
      | some tv => (Except.ok tv : Except String Int)
      | none => Except.error "invalid timestamp") = Except.ok t.timestamp
    rw [parseInt_renderInt]
  have e2 : decodeReqString (getField t.toObj "Description") = .ok t.description := rfl
  have e3 : decodeAmount (getField t.toObj "Amount") = .ok t.amount := by
    show (match parseInt (renderInt t.amount) with
      | some av => (Except.ok av : Except String Int)
      | none => Except.error "invalid decimal") = Except.ok t.amount
    rw [parseInt_renderInt]
  have e4 : decodeReqString (getField t.toObj "Currency") = .ok t.currency := rfl
  have e5 : decodeType (getField t.toObj "Type") = .ok t.type_ :=
    decodeType_renderType t.type_
  have e6 : decodeReqString (getField t.toObj "ID") = .ok t.id := rfl
  have e7 : decodeOptString (getField t.toObj "Matched ID") = .ok t.matched_id :=
    decodeOptString_optValue t.matched_id
  have e8 : decodeOptString (getField t.toObj "Comments") = .ok t.comments :=
    decodeOptString_optValue t.comments
  unfold transactionFromObj
  simp only [e1, e2, e3, e4, e5, e6, e7, e8, exceptOk_bind]
  rfl

theorem decodeRow_encodeRow (t : Transaction) (h : GoodTx t) :
    decodeRow field_names (encodeRow t) = .ok t := by
  unfold decodeRow
  rw [normalized_encodeRow t h, buildMap_toObj, transactionFromObj_toObj]

/-! ## C4: codec round-trip -/

theorem mapM_decode_encode (ts : List Transaction) :
    (∀ t ∈ ts, GoodTx t) →
      (ts.map encodeRow).mapM (decodeRow field_names) = Except.ok ts := by
  induction ts with
  | nil => intro _; rfl
  | cons t rest ih =>
    intro h
    have hgt : GoodTx t := h t (by simp)
    have hrest := ih (fun u hu => h u (by simp [hu]))
    simp only [List.map_cons, List.mapM_cons, decodeRow_encodeRow t hgt, hrest,
      exceptOk_bind]
    rfl

/-- C4 counterexample: a transaction whose description is the empty string
does not survive the round-trip, because the decoder normalizes its empty
description cell to null and then fails on the required string field. -/
theorem codec_roundtrip_cex :
    txEmptyDesc.description = "" ∧
      from_sheet_rows (to_sheet_rows [txEmptyDesc]) ≠ .ok [txEmptyDesc] := by
  constructor
  · rfl
  · have hzip : (field_names.zip (encodeRow txEmptyDesc)).map
        (fun p => (p.1, normalize_sheet_value p.2)) =
        [("Timestamp", .str (renderInt txEmptyDesc.timestamp)), ("Description", .null),
         ("Amount", .str (renderInt txEmptyDesc.amount)), ("Currency", .str "GBP"),
         ("Type", .str "Debit"), ("ID", .str "tx_empty"),
         ("Matched ID", .null), ("Comments", .null)] := by
      rw [encodeRow_eq]
      show [("Timestamp", normalize_sheet_value (.str (renderInt txEmptyDesc.timestamp))),
          ("Description", normalize_sheet_value (.str "")),
          ("Amount", normalize_sheet_value (.str (renderInt txEmptyDesc.amount))),
          ("Currency", normalize_sheet_value (.str "GBP")),
          ("Type", normalize_sheet_value (.str "Debit")),
          ("ID", normalize_sheet_value (.str "tx_empty")),
          ("Matched ID", normalize_sheet_value (optValue none)),
          ("Comments", normalize_sheet_value (optValue none))] = _
      rw [normalize_str (renderInt_ne_empty txEmptyDesc.timestamp),
        normalize_str (renderInt_ne_empty txEmptyDesc.amount)]
      rfl
    have hrow : decodeRow field_names (encodeRow txEmptyDesc) =
        .error "invalid string field" := by
      unfold decodeRow
      rw [hzip]
      have ets : decodeTimestamp (some (.str (renderInt txEmptyDesc.timestamp))) =
          .ok txEmptyDesc.timestamp := by
        show (match parseInt (renderInt txEmptyDesc.timestamp) with
          | some tv => (Except.ok tv : Except String Int)
          | none => Except.error "invalid timestamp") = _
        rw [parseInt_renderInt]
      unfold transactionFromObj
      rw [show decodeTimestamp (getField (buildMap
          [("Timestamp", .str (renderInt txEmptyDesc.timestamp)), ("Description", .null),
           ("Amount", .str (renderInt txEmptyDesc.amount)), ("Currency", .str "GBP"),
           ("Type", .str "Debit"), ("ID", .str "tx_empty"),
           ("Matched ID", .null), ("Comments", .null)]) "Timestamp") =
          decodeTimestamp (some (.str (renderInt txEmptyDesc.timestamp))) from rfl, ets]
      rw [exceptOk_bind]
      rfl
    have hfull : from_sheet_rows (to_sheet_rows [txEmptyDesc]) =
        .error "invalid string field" := by
      rw [show from_sheet_rows (to_sheet_rows [txEmptyDesc]) =
          ([encodeRow txEmptyDesc].mapM (decodeRow field_names)) from rfl]
      simp only [List.mapM_cons, hrow, exceptError_bind]
    rw [hfull]
    intro hcon
    exact Except.noConfusion hcon

/-- C4 corrected: encoding then decoding is the identity on lists of
transactions whose string fields survive the empty-cell normalization
(non-empty required strings, optionals absent or non-empty); encoding the
empty list yields only the header row, and decoding a header-only row set
or completely empty input yields the empty list without error. -/
theorem codec_roundtrip_good :
    (∀ ts : List Transaction, (∀ t ∈ ts, GoodTx t) →
        from_sheet_rows (to_sheet_rows ts) = .ok ts) ∧
      to_sheet_rows [] = [field_names.map JValue.str] ∧
      from_sheet_rows [field_names.map JValue.str] = .ok [] ∧
      from_sheet_rows [] = .ok [] := by
  refine ⟨?_, rfl, rfl, rfl⟩
  intro ts hts
  rw [show from_sheet_rows (to_sheet_rows ts) =
      ((ts.map encodeRow).mapM (decodeRow field_names)) from rfl]
  exact mapM_decode_encode ts hts

/-- C4 witness: a concrete well-formed transaction round-trips. -/
theorem codec_roundtrip_good_witness :
    (∀ t ∈ [txGood], GoodTx t) ∧
      from_sheet_rows (to_sheet_rows [txGood]) = .ok [txGood] :=
  ⟨by decide, codec_roundtrip_good.1 [txGood] (by decide)⟩

/-! ## Matcher lemmas -/

theorem getD_set_true_self {l : List Bool} {i : Nat} (h : i < l.length) :
    ((l.set i true).getD i false) = true := by
  simp [List.getD_eq_getElem?_getD, List.getElem?_set_self h]

theorem getD_set_mono {l : List Bool} {i k : Nat}
    (h : ((l.set i true).getD k false) = false) : l.getD k false = false := by
  by_cases hik : i = k
  · subst hik
    by_cases hlen : i < l.length
    · rw [getD_set_true_self hlen] at h
      exact absurd h (by simp)
    · simp only [List.getD_eq_getElem?_getD]
      rw [List.getElem?_eq_none (by omega)]
      rfl
  · rwa [List.getD_eq_getElem?_getD, List.getElem?_set_ne hik,
      ← List.getD_eq_getElem?_getD] at h

theorem ids_get_inj {g : List Transaction} (h : (g.map (fun t => t.id)).Nodup)
    {k i : Nat} {tk a : Transaction} (hk : g.get? k = some tk) (hi : g.get? i = some a)
    (heq : tk.id = a.id) : k = i := by
  have hk2 : (g.map (fun t => t.id)).get? k = some tk.id := by
    rw [List.get?_eq_getElem?, List.getElem?_map, ← List.get?_eq_getElem?, hk]
    rfl
  have hi2 : (g.map (fun t => t.id)).get? i = some a.id := by
    rw [List.get?_eq_getElem?, List.getElem?_map, ← List.get?_eq_getElem?, hi]
    rfl
  have hklen : k < (g.map (fun t => t.id)).length := by
    by_contra hcon
    rw [List.get?_eq_none.2 (by omega)] at hk2
    exact Option.noConfusion hk2
  have hilen : i < (g.map (fun t => t.id)).length := by
    by_contra hcon
    rw [List.get?_eq_none.2 (by omega)] at hi2
    exact Option.noConfusion hi2
  by_contra hne
  rcases Nat.lt_or_ge k i with hlt | hge
  · exact List.nodup_iff_get?_ne_get?.1 h k i hlt hilen (by rw [hk2, hi2, heq])
  · have hlt2 : i < k := by omega
    exact List.nodup_iff_get?_ne_get?.1 h i k hlt2 hklen (by rw [hk2, hi2, heq])

theorem findCreditAux_sound {a : Transaction} {days i : Nat} {cons : List Bool} :
    ∀ {l : List Transaction} {j0 j : Nat} {b : Transaction},
      findCreditAux a days i cons j0 l = some (j, b) →
      j0 ≤ j ∧ l.get? (j - j0) = some b ∧ j ≠ i ∧ cons.getD j false = false ∧
        b.type_ = TransactionType.Credit ∧ a.amount + b.amount = 0 ∧ a.id ≠ b.id ∧
        withinWindow a b days = true := by
  intro l
  induction l with
  | nil =>
    intro j0 j b h
    exact absurd h (by simp [findCreditAux])
  | cons c rest ih =>
    intro j0 j b h
    rw [findCreditAux] at h
    split at h
    · rename_i hcond
      obtain ⟨rfl, rfl⟩ : j0 = j ∧ c = b := by
        constructor <;> [exact congrArg Prod.fst (Option.some.inj h);
          exact congrArg Prod.snd (Option.some.inj h)]
      obtain ⟨h1, h2, h3, h4, h5, h6⟩ := hcond
      exact ⟨le_refl _, by simp, h1, h2, h3, h4, h5, h6⟩
    · obtain ⟨hle, hget, hrest⟩ := ih h
      refine ⟨by omega, ?_, hrest⟩
      have : j - j0 = (j - (j0 + 1)) + 1 := by omega
      rw [this]
      simpa using hget

theorem matchLoop_pairs_sound (g : List Transaction) (days : Nat) :
    ∀ (idxs : List Nat) (cons : List Bool) (p : MatchedPair),
      p ∈ matchLoop g days idxs cons →
      ∃ a b : Transaction, a ∈ g ∧ b ∈ g ∧
        a.type_ = TransactionType.Debit ∧ b.type_ = TransactionType.Credit ∧
        a.amount + b.amount = 0 ∧ a.id ≠ b.id ∧ withinWindow a b days = true ∧
        p.debit_id = a.id ∧ p.credit_id = b.id := by
  intro idxs
  induction idxs with
  | nil =>
    intro cons p hp
    exact absurd hp (by simp [matchLoop])
  | cons i rest ih =>
    intro cons p hp
    rw [matchLoop] at hp
    rcases hget : g.get? i with _ | a
    · simp only [hget] at hp
      exact ih cons p hp
    · simp only [hget] at hp
      by_cases hcons : cons.getD i false
      · rw [if_pos hcons] at hp
        exact ih cons p hp
      · rw [if_neg hcons] at hp
        by_cases hty : a.type_ ≠ TransactionType.Debit
        · rw [if_pos hty] at hp
          exact ih cons p hp
        · rw [if_neg hty] at hp
          rcases hfind : findCredit g cons a i days with _ | jb
          · rw [hfind] at hp
            exact ih cons p hp
          · rw [hfind] at hp
            obtain ⟨j, b⟩ := jb
            rcases List.mem_cons.1 hp with rfl | hpmem
            · obtain ⟨_, hget2, _, _, hcredit, hsum, hid, hwin⟩ :=
                findCreditAux_sound hfind
              rw [Nat.sub_zero] at hget2
              exact ⟨a, b, List.get?_mem hget, List.get?_mem hget2,
                not_not.1 hty, hcredit, hsum, hid, hwin, rfl, rfl⟩
            · exact ih _ p hpmem

theorem matchLoop_ids (g : List Transaction) (days : Nat)
    (hnodup : (g.map (fun t => t.id)).Nodup) :
    ∀ (idxs : List Nat) (cons : List Bool), cons.length = g.length →
      (pairsIds (matchLoop g days idxs cons)).Nodup ∧
      (∀ x ∈ pairsIds (matchLoop g days idxs cons),
        ∃ k : Nat, ∃ tk : Transaction,
          g.get? k = some tk ∧ x = tk.id ∧ cons.getD k false = false) := by
  intro idxs
  induction idxs with
  | nil =>
    intro cons _
    constructor
    · simp [matchLoop, pairsIds]
    · intro x hx
      exact absurd hx (by simp [matchLoop, pairsIds])
  | cons i rest ih =>
    intro cons hlen
    rw [matchLoop]
    rcases hget : g.get? i with _ | a
    · simp only [hget]
      exact ih cons hlen
    · simp only [hget]
      by_cases hcons : cons.getD i false
      · rw [if_pos hcons]
        exact ih cons hlen
      · rw [if_neg hcons]
        by_cases hty : a.type_ ≠ TransactionType.Debit
        · rw [if_pos hty]
          exact ih cons hlen
        · rw [if_neg hty]
          rcases hfind : findCredit g cons a i days with _ | jb
          · simp only [hfind]
            exact ih cons hlen
          · simp only [hfind]
            obtain ⟨j, b⟩ := jb
            obtain ⟨_, hgetb, hji, hconsj, _, _, hidab, _⟩ := findCreditAux_sound hfind
            rw [Nat.sub_zero] at hgetb
            have hilen : i < g.length := by
              by_contra hcon
              rw [List.get?_eq_none.2 (by omega)] at hget
              exact Option.noConfusion hget
            have hjlen : j < g.length := by
              by_contra hcon
              rw [List.get?_eq_none.2 (by omega)] at hgetb
              exact Option.noConfusion hgetb
            have hlen2 : ((cons.set i true).set j true).length = g.length := by
              simp [hlen]
            obtain ⟨ihnd, ihsrc⟩ := ih ((cons.set i true).set j true) hlen2
            have hconsi : cons.getD i false = false := by
              simpa using hcons
            have hconsi2 : (((cons.set i true).set j true).getD i false) = true := by
              rw [List.getD_eq_getElem?_getD, List.getElem?_set_ne hji,
                ← List.getD_eq_getElem?_getD]
              exact getD_set_true_self (by omega)
            have hconsj2 : (((cons.set i true).set j true).getD j false) = true :=
              getD_set_true_self (by simp; omega)
            have hnotina : a.id ∉ pairsIds (matchLoop g days rest ((cons.set i true).set j true)) := by
              intro hmem
              obtain ⟨k, tk, hk, hkid, hkcons⟩ := ihsrc a.id hmem
              have : k = i := ids_get_inj hnodup hk hget hkid.symm
              rw [this, hconsi2] at hkcons
              exact Bool.noConfusion hkcons
            have hnotinb : b.id ∉ pairsIds (matchLoop g days rest ((cons.set i true).set j true)) := by
              intro hmem
              obtain ⟨k, tk, hk, hkid, hkcons⟩ := ihsrc b.id hmem
              have : k = j := ids_get_inj hnodup hk hgetb hkid.symm
              rw [this, hconsj2] at hkcons
              exact Bool.noConfusion hkcons
            constructor
            · show (a.id :: b.id :: pairsIds _).Nodup
              refine List.nodup_cons.2 ⟨?_, List.nodup_cons.2 ⟨hnotinb, ihnd⟩⟩
              simp only [List.mem_cons, not_or]
              exact ⟨hidab, hnotina⟩
            · intro x hx
              rcases List.mem_cons.1 hx with rfl | hx2
              · exact ⟨i, a, hget, rfl, hconsi⟩
              · rcases List.mem_cons.1 hx2 with rfl | hx3
                · exact ⟨j, b, hgetb, rfl, by simpa using hconsj⟩
                · obtain ⟨k, tk, hk, hkid, hkcons⟩ := ihsrc x hx3
                  exact ⟨k, tk, hk, hkid,
                    getD_set_mono (getD_set_mono hkcons)⟩

theorem sortByTimestamp_ids_nodup {g : List Transaction}
    (h : (g.map (fun t => t.id)).Nodup) :
    ((sortByTimestamp g).map (fun t => t.id)).Nodup := by
  have hperm : ((sortByTimestamp g).map (fun t => t.id)).Perm (g.map (fun t => t.id)) :=
    (List.perm_insertionSort tsLe g).map _
  exact hperm.nodup_iff.2 h

theorem matchBucket_sound {g : List Transaction} {days : Nat} {p : MatchedPair}
    (hp : p ∈ matchBucket g days) :
    ∃ a b : Transaction, a ∈ g ∧ b ∈ g ∧
      a.type_ = TransactionType.Debit ∧ b.type_ = TransactionType.Credit ∧
      a.amount + b.amount = 0 ∧ a.id ≠ b.id ∧ withinWindow a b days = true ∧
      p.debit_id = a.id ∧ p.credit_id = b.id := by
  obtain ⟨a, b, ha, hb, hrest⟩ := matchLoop_pairs_sound (sortByTimestamp g) days _ _ p hp
  exact ⟨a, b, mem_sortByTimestamp.1 ha, mem_sortByTimestamp.1 hb, hrest⟩

theorem matchBucket_ids {g : List Transaction} {days : Nat}
    (h : (g.map (fun t => t.id)).Nodup) :
    (pairsIds (matchBucket g days)).Nodup ∧
      ∀ x ∈ pairsIds (matchBucket g days), x ∈ g.map (fun t => t.id) := by
  have hs := sortByTimestamp_ids_nodup h
  obtain ⟨hnd, hsrc⟩ := matchLoop_ids (sortByTimestamp g) days hs
    (List.range (sortByTimestamp g).length)
    (List.replicate (sortByTimestamp g).length false) (by simp)
  refine ⟨hnd, ?_⟩
  intro x hx
  obtain ⟨k, tk, hk, rfl, _⟩ := hsrc x hx
  exact List.mem_map_of_mem _ (mem_sortByTimestamp.1 (List.get?_mem hk))

theorem dedupKeysAux_spec : ∀ (l seen : List Nat),
    (dedupKeysAux seen l).Nodup ∧ ∀ x ∈ dedupKeysAux seen l, x ∈ l ∧ x ∉ seen := by
  intro l
  induction l with
  | nil => intro seen; simp [dedupKeysAux]
  | cons k ks ih =>
    intro seen
    rw [dedupKeysAux]
    by_cases hk : k ∈ seen
    · rw [if_pos hk]
      obtain ⟨hnd, hmem⟩ := ih seen
      exact ⟨hnd, fun x hx => ⟨List.mem_cons_of_mem k (hmem x hx).1, (hmem x hx).2⟩⟩
    · rw [if_neg hk]
      obtain ⟨hnd, hmem⟩ := ih (k :: seen)
      constructor
      · refine List.nodup_cons.2 ⟨?_, hnd⟩
        intro hcon
        exact absurd (by simp : k ∈ k :: seen) (hmem k hcon).2
      · intro x hx
        rcases List.mem_cons.1 hx with rfl | hx2
        · exact ⟨by simp, hk⟩
        · obtain ⟨hx3, hx4⟩ := hmem x hx2
          exact ⟨List.mem_cons_of_mem k hx3,
            fun hcon => hx4 (List.mem_cons_of_mem k hcon)⟩

theorem dedupKeys_nodup (l : List Nat) : (dedupKeys l).Nodup :=
  (dedupKeysAux_spec l []).1

theorem nodup_ids_mem_inj {l : List Transaction}
    (h : (l.map (fun t => t.id)).Nodup) :
    ∀ a ∈ l, ∀ b ∈ l, a.id = b.id → a = b := by
  induction l with
  | nil => simp
  | cons c rest ih =>
    simp only [List.map_cons, List.nodup_cons] at h
    intro a ha b hb heq
    rcases List.mem_cons.1 ha with ha1 | ha1 <;> rcases List.mem_cons.1 hb with hb1 | hb1
    · rw [ha1, hb1]
    · subst ha1
      exact absurd (by rw [heq]; exact List.mem_map_of_mem _ hb1) h.1
    · subst hb1
      exact absurd (by rw [← heq]; exact List.mem_map_of_mem _ ha1) h.1
    · exact ih h.2 a ha1 b hb1 heq

theorem buckets_mem {l : List Transaction} {gb : List Transaction}
    (hgb : gb ∈ buckets l) : ∀ t ∈ gb, t ∈ l := by
  obtain ⟨k, _, rfl⟩ := List.mem_map.1 hgb
  intro t ht
  exact (List.mem_filter.1 ht).1

theorem buckets_ids_nodup {l : List Transaction}
    (h : (l.map (fun t => t.id)).Nodup) {gb : List Transaction}
    (hgb : gb ∈ buckets l) : (gb.map (fun t => t.id)).Nodup := by
  obtain ⟨k, _, rfl⟩ := List.mem_map.1 hgb
  exact ((List.filter_sublist l).map _).nodup h

theorem buckets_pairwise_disjoint {l : List Transaction}
    (h : (l.map (fun t => t.id)).Nodup) :
    List.Pairwise (fun g1 g2 => ∀ x, x ∈ g1.map (fun t => t.id) →
      x ∉ g2.map (fun t => t.id)) (buckets l) := by
  unfold buckets
  rw [List.pairwise_map]
  have hnd := dedupKeys_nodup (l.map (fun t => t.amount.natAbs))
  refine hnd.imp ?_
  intro k1 k2 hne x hx1 hx2
  obtain ⟨t1, ht1, hid1⟩ := List.mem_map.1 hx1
  obtain ⟨t2, ht2, hid2⟩ := List.mem_map.1 hx2
  obtain ⟨ht1l, ht1k⟩ := List.mem_filter.1 ht1
  obtain ⟨ht2l, ht2k⟩ := List.mem_filter.1 ht2
  have : t1 = t2 := nodup_ids_mem_inj h t1 ht1l t2 ht2l (by rw [hid1, hid2])
  subst this
  simp only [decide_eq_true_eq] at ht1k ht2k
  exact hne (by rw [← ht1k, ← ht2k])

theorem pairsIds_append (xs ys : List MatchedPair) :
    pairsIds (xs ++ ys) = pairsIds xs ++ pairsIds ys := by
  induction xs with
  | nil => rfl
  | cons p ps ih => simp [pairsIds, ih]

theorem mem_reconcileBuckets {days : Nat} :
    ∀ {B : List (List Transaction)} {p : MatchedPair},
      p ∈ reconcileBuckets days B → ∃ gb ∈ B, p ∈ matchBucket gb days := by
  intro B
  induction B with
  | nil =>
    intro p hp
    exact absurd hp (by simp [reconcileBuckets])
  | cons g gs ih =>
    intro p hp
    rw [reconcileBuckets] at hp
    rcases List.mem_append.1 hp with hp1 | hp1
    · exact ⟨g, by simp, hp1⟩
    · obtain ⟨gb, hgb, hpm⟩ := ih hp1
      exact ⟨gb, List.mem_cons_of_mem g hgb, hpm⟩

theorem mem_pairsIds_reconcileBuckets {days : Nat} :
    ∀ {B : List (List Transaction)} {x : String},
      x ∈ pairsIds (reconcileBuckets days B) →
        ∃ gb ∈ B, x ∈ pairsIds (matchBucket gb days) := by
  intro B
  induction B with
  | nil =>
    intro x hx
    exact absurd hx (by simp [reconcileBuckets, pairsIds])
  | cons g gs ih =>
    intro x hx
    rw [reconcileBuckets, pairsIds_append] at hx
    rcases List.mem_append.1 hx with hx1 | hx1
    · exact ⟨g, by simp, hx1⟩
    · obtain ⟨gb, hgb, hxm⟩ := ih hx1
      exact ⟨gb, List.mem_cons_of_mem g hgb, hxm⟩

theorem reconcileBuckets_ids_nodup (days : Nat) :
    ∀ (B : List (List Transaction)),
      (∀ gb ∈ B, (pairsIds (matchBucket gb days)).Nodup) →
      (∀ gb ∈ B, ∀ x ∈ pairsIds (matchBucket gb days), x ∈ gb.map (fun t => t.id)) →
      List.Pairwise (fun g1 g2 => ∀ x, x ∈ g1.map (fun t => t.id) →
        x ∉ g2.map (fun t => t.id)) B →
      (pairsIds (reconcileBuckets days B)).Nodup := by
  intro B
  induction B with
  | nil =>
    intro _ _ _
    simp [reconcileBuckets, pairsIds]
  | cons g gs ih =>
    intro hnd hsub hpw
    rw [reconcileBuckets, pairsIds_append]
    rw [List.pairwise_cons] at hpw
    refine List.Nodup.append (hnd g (by simp)) ?_ ?_
    · exact ih (fun gb hgb => hnd gb (List.mem_cons_of_mem g hgb))
        (fun gb hgb => hsub gb (List.mem_cons_of_mem g hgb)) hpw.2
    · intro x hx1 hx2
      obtain ⟨gb, hgb, hxm⟩ := mem_pairsIds_reconcileBuckets hx2
      exact hpw.1 gb hgb x (hsub g (by simp) x hx1)
        (hsub gb (List.mem_cons_of_mem g hgb) x hxm)

/-! ## C8: well-formedness of the matcher output -/

/-- C8: on input with unique ids, every emitted pair links a Debit to a
Credit among the inputs, with amounts summing exactly to zero, neither
transaction reconciled on input, the two ids distinct, and no transaction
id occurring in more than one emitted pair. -/
theorem reconcile_pairs_wellformed (txs : List Transaction) (days : Nat)
    (h : (txs.map (fun t => t.id)).Nodup) :
    (∀ p ∈ reconcile_transactions txs days,
        ∃ a b : Transaction, a ∈ txs ∧ b ∈ txs ∧
          p.debit_id = a.id ∧ p.credit_id = b.id ∧
          a.type_ = TransactionType.Debit ∧ b.type_ = TransactionType.Credit ∧
          a.amount + b.amount = 0 ∧ a.matched_id = none ∧ b.matched_id = none ∧
          p.debit_id ≠ p.credit_id) ∧
      (pairsIds (reconcile_transactions txs days)).Nodup := by
  have hcand : ((txs.filter (fun t => t.matched_id.isNone)).map (fun t => t.id)).Nodup :=
    ((List.filter_sublist txs).map _).nodup h
  constructor
  · intro p hp
    obtain ⟨gb, hgb, hpm⟩ := mem_reconcileBuckets hp
    obtain ⟨a, b, ha, hb, hda, hcb, hsum, hid, _, hpd, hpc⟩ := matchBucket_sound hpm
    have ha2 := buckets_mem hgb a ha
    have hb2 := buckets_mem hgb b hb
    have ham : a.matched_id = none := by
      have := (List.mem_filter.1 ha2).2
      simpa [Option.isNone_iff_eq_none] using this
    have hbm : b.matched_id = none := by
      have := (List.mem_filter.1 hb2).2
      simpa [Option.isNone_iff_eq_none] using this
    exact ⟨a, b, (List.mem_filter.1 ha2).1, (List.mem_filter.1 hb2).1, hpd, hpc,
      hda, hcb, hsum, ham, hbm, by rw [hpd, hpc]; exact hid⟩
  · exact reconcileBuckets_ids_nodup days _
      (fun gb hgb => (matchBucket_ids (buckets_ids_nodup hcand hgb)).1)
      (fun gb hgb => (matchBucket_ids (buckets_ids_nodup hcand hgb)).2)
      (buckets_pairwise_disjoint hcand)

/-- C8 witness: the well-formedness properties hold for a concrete run. -/
theorem reconcile_pairs_wellformed_witness :
    (([txDebitW, txCreditW, txOld].map (fun t => t.id)).Nodup) ∧
      ((∀ p ∈ reconcile_transactions [txDebitW, txCreditW, txOld] 60,
          ∃ a b : Transaction, a ∈ [txDebitW, txCreditW, txOld] ∧
            b ∈ [txDebitW, txCreditW, txOld] ∧
            p.debit_id = a.id ∧ p.credit_id = b.id ∧
            a.type_ = TransactionType.Debit ∧ b.type_ = TransactionType.Credit ∧
            a.amount + b.amount = 0 ∧ a.matched_id = none ∧ b.matched_id = none ∧
            p.debit_id ≠ p.credit_id) ∧
        (pairsIds (reconcile_transactions [txDebitW, txCreditW, txOld] 60)).Nodup) :=
  ⟨by decide, reconcile_pairs_wellformed [txDebitW, txCreditW, txOld] 60 (by decide)⟩

/-! ## Small-input inversion and evaluation lemmas for the matcher -/

theorem perm_pair_inv {a b : Transaction} {l : List Transaction} (h : l.Perm [a, b]) :
    l = [a, b] ∨ l = [b, a] := by
  have hlen := h.length_eq
  rcases l with _ | ⟨x, _ | ⟨y, _ | ⟨z, rest⟩⟩⟩
  · simp at hlen
  · simp at hlen
  case cons.cons.nil =>
    have hx : x ∈ [a, b] := h.mem_iff.1 (by simp)
    rcases List.mem_pair.1 hx with rfl | rfl
    · left
      have h2 : [y].Perm [b] := h.cons_inv
      rw [List.perm_singleton.1 h2]
    · right
      have h3 : ([x, y] : List Transaction).Perm [x, a] :=
        h.trans (List.Perm.swap x a [])
      have h2 : [y].Perm [a] := h3.cons_inv
      rw [List.perm_singleton.1 h2]
  · simp at hlen

theorem perm_triple_inv {a b c : Transaction} {l : List Transaction}
    (h : l.Perm [a, b, c]) :
    l = [a, b, c] ∨ l = [a, c, b] ∨ l = [b, a, c] ∨ l = [b, c, a] ∨
      l = [c, a, b] ∨ l = [c, b, a] := by
  have hlen := h.length_eq
  rcases l with _ | ⟨x, xs⟩
  · simp at hlen
  · have hx : x ∈ [a, b, c] := h.mem_iff.1 (by simp)
    have hxs3 : xs.length = 2 := by simpa using hlen
    rcases List.mem_cons.1 hx with rfl | hx2
    · have h2 : xs.Perm [b, c] := h.cons_inv
      rcases perm_pair_inv h2 with rfl | rfl
      · exact Or.inl rfl
      · exact Or.inr (Or.inl rfl)
    · rcases List.mem_cons.1 hx2 with rfl | hx3
      · have hrot : ([a, x, c] : List Transaction).Perm [x, a, c] := List.Perm.swap x a [c]
        have h2 : xs.Perm [a, c] := (h.trans hrot).cons_inv
        rcases perm_pair_inv h2 with rfl | rfl
        · exact Or.inr (Or.inr (Or.inl rfl))
        · exact Or.inr (Or.inr (Or.inr (Or.inl rfl)))
      · rcases List.mem_cons.1 hx3 with rfl | hx4
        · have hrot1 : ([a, b, x] : List Transaction).Perm [a, x, b] :=
            List.Perm.cons a (List.Perm.swap x b [])
          have hrot2 : ([a, x, b] : List Transaction).Perm [x, a, b] := List.Perm.swap x a [b]
          have h2 : xs.Perm [a, b] := ((h.trans hrot1).trans hrot2).cons_inv
          rcases perm_pair_inv h2 with rfl | rfl
          · exact Or.inr (Or.inr (Or.inr (Or.inr (Or.inl rfl))))
          · exact Or.inr (Or.inr (Or.inr (Or.inr (Or.inr rfl))))
        · simp at hx4

theorem dedupKeysAux_all_eq (k : Nat) :
    ∀ ks : List Nat, (∀ x ∈ ks, x = k) → dedupKeysAux [k] ks = [] := by
  intro ks
  induction ks with
  | nil => intro _; rfl
  | cons k0 rest ih =>
    intro hall
    have hk0 : k0 = k := hall k0 (by simp)
    subst hk0
    rw [dedupKeysAux, if_pos (by simp)]
    exact ih (fun x hx => hall x (List.mem_cons_of_mem k0 hx))

theorem dedupKeys_all_eq {k : Nat} {ks : List Nat} (hne : ks ≠ [])
    (hall : ∀ x ∈ ks, x = k) : dedupKeys ks = [k] := by
  rcases ks with _ | ⟨k0, rest⟩
  · exact absurd rfl hne
  · have hk0 : k0 = k := hall k0 (by simp)
    subst hk0
    rw [dedupKeys, dedupKeysAux, if_neg (by simp)]
    rw [dedupKeysAux_all_eq k0 rest (fun x hx => hall x (List.mem_cons_of_mem k0 hx))]

theorem buckets_single {l : List Transaction} {k : Nat} (hne : l ≠ [])
    (hall : ∀ t ∈ l, t.amount.natAbs = k) : buckets l = [l] := by
  unfold buckets
  rw [dedupKeys_all_eq (by simpa using hne)
    (fun x hx => by
      obtain ⟨t, ht, rfl⟩ := List.mem_map.1 hx
      exact hall t ht)]
  simp only [List.map_cons, List.map_nil]
  congr 1
  exact List.filter_eq_self.2 (fun t ht => by simp [hall t ht])

theorem reconcile_single_bucket {l : List Transaction} {days k : Nat}
    (hne : l ≠ []) (hcand : ∀ t ∈ l, t.matched_id = none)
    (hkey : ∀ t ∈ l, t.amount.natAbs = k) :
    reconcile_transactions l days = matchBucket l days := by
  unfold reconcile_transactions
  rw [List.filter_eq_self.2 (fun t ht => by simp [hcand t ht])]
  rw [buckets_single hne hkey]
  rw [reconcileBuckets, reconcileBuckets]
  simp

theorem matchBucket_eval {l s : List Transaction} {days : Nat}
    (hs : sortByTimestamp l = s) :
    matchBucket l days =
      matchLoop s days (List.range s.length) (List.replicate s.length false) := by
  rw [matchBucket, hs]

theorem sortByTimestamp_pair {d c : Transaction} {l : List Transaction}
    (hperm : l.Perm [d, c]) :
    sortByTimestamp l = [d, c] ∨ sortByTimestamp l = [c, d] :=
  perm_pair_inv ((List.perm_insertionSort tsLe l).trans hperm)

theorem sortByTimestamp_triple {d c1 c2 : Transaction} {l : List Transaction}
    (hperm : l.Perm [d, c1, c2]) (hts : c1.timestamp < c2.timestamp) :
    sortByTimestamp l = [d, c1, c2] ∨ sortByTimestamp l = [c1, d, c2] ∨
      sortByTimestamp l = [c1, c2, d] := by
  have hp : (sortByTimestamp l).Perm [d, c1, c2] :=
    (List.perm_insertionSort tsLe l).trans hperm
  have hsorted : List.Sorted tsLe (sortByTimestamp l) := List.sorted_insertionSort tsLe l
  rcases perm_triple_inv hp with h | h | h | h | h | h
  · exact Or.inl h
  · rw [h] at hsorted
    have h21 : tsLe c2 c1 :=
      (List.sorted_cons.1 (List.sorted_cons.1 hsorted).2).1 c1 (by simp)
    have : c2.timestamp ≤ c1.timestamp := h21
    omega
  · exact Or.inr (Or.inl h)
  · exact Or.inr (Or.inr h)
  · rw [h] at hsorted
    have h21 : tsLe c2 c1 := (List.sorted_cons.1 hsorted).1 c1 (by simp)
    have : c2.timestamp ≤ c1.timestamp := h21
    omega
  · rw [h] at hsorted
    have h21 : tsLe c2 c1 := (List.sorted_cons.1 hsorted).1 c1 (by simp)
    have : c2.timestamp ≤ c1.timestamp := h21
    omega

theorem matchLoop_pair_hit {d c : Transaction} {days : Nat}
    (hd : d.type_ = TransactionType.Debit) (hc : c.type_ = TransactionType.Credit)
    (hsum : d.amount + c.amount = 0) (hid : d.id ≠ c.id)
    (hwin : withinWindow d c days = true) :
    matchLoop [d, c] days [0, 1] [false, false] = [⟨d.id, c.id⟩] := by
  simp [matchLoop, findCredit, findCreditAux, hd, hc, hsum, hid, hwin]

theorem matchLoop_pair_hit_rev {d c : Transaction} {days : Nat}
    (hd : d.type_ = TransactionType.Debit) (hc : c.type_ = TransactionType.Credit)
    (hsum : d.amount + c.amount = 0) (hid : d.id ≠ c.id)
    (hwin : withinWindow d c days = true) :
    matchLoop [c, d] days [0, 1] [false, false] = [⟨d.id, c.id⟩] := by
  simp [matchLoop, findCredit, findCreditAux, hd, hc, hsum, hid, hwin]

theorem matchLoop_pair_miss {d c : Transaction} {days : Nat}
    (hd : d.type_ = TransactionType.Debit) (hc : c.type_ = TransactionType.Credit)
    (hwin : withinWindow d c days = false) :
    matchLoop [d, c] days [0, 1] [false, false] = [] := by
  simp [matchLoop, findCredit, findCreditAux, hd, hc, hwin]

theorem matchLoop_pair_miss_rev {d c : Transaction} {days : Nat}
    (hd : d.type_ = TransactionType.Debit) (hc : c.type_ = TransactionType.Credit)
    (hwin : withinWindow d c days = false) :
    matchLoop [c, d] days [0, 1] [false, false] = [] := by
  simp [matchLoop, findCredit, findCreditAux, hd, hc, hwin]

/-! ## C6: the date-window boundary -/

/-- C6: an unreconciled Debit/Credit pair with amounts cancelling exactly
is matched precisely when the whole-day distance is at most `days`
(truncated day count, as computed by `Duration::num_days().abs()`); at
distance `days` the pair matches, at `days + 1` or more whole days it does
not. -/
theorem reconcile_window_boundary (d c : Transaction) (days : Nat)
    (l : List Transaction) (hperm : l.Perm [d, c])
    (hd : d.type_ = TransactionType.Debit) (hc : c.type_ = TransactionType.Credit)
    (hmd : d.matched_id = none) (hmc : c.matched_id = none)
    (hsum : d.amount + c.amount = 0) (hid : d.id ≠ c.id) :
    ((numDays (c.timestamp - d.timestamp)).natAbs ≤ days →
        reconcile_transactions l days = [⟨d.id, c.id⟩]) ∧
      (days + 1 ≤ (numDays (c.timestamp - d.timestamp)).natAbs →
        reconcile_transactions l days = []) := by
  have hne : l ≠ [] := by
    intro hcon
    rw [hcon] at hperm
    exact absurd hperm.length_eq (by simp)
  have hcand : ∀ t ∈ l, t.matched_id = none := by
    intro t ht
    rcases List.mem_pair.1 (hperm.mem_iff.1 ht) with rfl | rfl
    · exact hmd
    · exact hmc
  have hca : c.amount.natAbs = d.amount.natAbs := by
    have : c.amount = -d.amount := by omega
    rw [this, Int.natAbs_neg]
  have hkey : ∀ t ∈ l, t.amount.natAbs = d.amount.natAbs := by
    intro t ht
    rcases List.mem_pair.1 (hperm.mem_iff.1 ht) with rfl | rfl
    · rfl
    · exact hca
  have hrec : reconcile_transactions l days = matchBucket l days :=
    reconcile_single_bucket hne hcand hkey
  constructor
  · intro hw
    have hwin : withinWindow d c days = true := by
      simp only [withinWindow, decide_eq_true_eq]
      exact hw
    rcases sortByTimestamp_pair hperm with hs | hs
    · rw [hrec, matchBucket_eval hs]
      exact matchLoop_pair_hit hd hc hsum hid hwin
    · rw [hrec, matchBucket_eval hs]
      exact matchLoop_pair_hit_rev hd hc hsum hid hwin
  · intro hw
    have hwin : withinWindow d c days = false := by
      simp only [withinWindow, decide_eq_false_iff_not]
      omega
    rcases sortByTimestamp_pair hperm with hs | hs
    · rw [hrec, matchBucket_eval hs]
      exact matchLoop_pair_miss hd hc hwin
    · rw [hrec, matchBucket_eval hs]
      exact matchLoop_pair_miss_rev hd hc hwin

/-- C6 witness: with a three-day window, a pair exactly three days apart is
matched. -/
theorem reconcile_window_boundary_witness :
    (numDays (txCreditW.timestamp - txDebitW.timestamp)).natAbs ≤ 3 ∧
      reconcile_transactions [txDebitW, txCreditW] 3 = [⟨txDebitW.id, txCreditW.id⟩] :=
  ⟨by decide,
    (reconcile_window_boundary txDebitW txCreditW 3 [txDebitW, txCreditW]
      (List.Perm.refl _) (by decide) (by decide) (by decide) (by decide) (by decide)
      (by decide)).1 (by decide)⟩

theorem matchLoop_triple_a {d c1 c2 : Transaction} {days : Nat}
    (hd : d.type_ = TransactionType.Debit) (hc1 : c1.type_ = TransactionType.Credit)
    (hc2 : c2.type_ = TransactionType.Credit) (hsum1 : d.amount + c1.amount = 0)
    (hid1 : d.id ≠ c1.id) (hwin1 : withinWindow d c1 days = true) :
    matchLoop [d, c1, c2] days [0, 1, 2] [false, false, false] = [⟨d.id, c1.id⟩] := by
  simp [matchLoop, findCredit, findCreditAux, hd, hc1, hc2, hsum1, hid1, hwin1]

theorem matchLoop_triple_b {d c1 c2 : Transaction} {days : Nat}
    (hd : d.type_ = TransactionType.Debit) (hc1 : c1.type_ = TransactionType.Credit)
    (hc2 : c2.type_ = TransactionType.Credit) (hsum1 : d.amount + c1.amount = 0)
    (hid1 : d.id ≠ c1.id) (hwin1 : withinWindow d c1 days = true) :
    matchLoop [c1, d, c2] days [0, 1, 2] [false, false, false] = [⟨d.id, c1.id⟩] := by
  simp [matchLoop, findCredit, findCreditAux, hd, hc1, hc2, hsum1, hid1, hwin1]

theorem matchLoop_triple_c {d c1 c2 : Transaction} {days : Nat}
    (hd : d.type_ = TransactionType.Debit) (hc1 : c1.type_ = TransactionType.Credit)
    (hc2 : c2.type_ = TransactionType.Credit) (hsum1 : d.amount + c1.amount = 0)
    (hid1 : d.id ≠ c1.id) (hwin1 : withinWindow d c1 days = true) :
    matchLoop [c1, c2, d] days [0, 1, 2] [false, false, false] = [⟨d.id, c1.id⟩] := by
  simp [matchLoop, findCredit, findCreditAux, hd, hc1, hc2, hsum1, hid1, hwin1]

/-! ## C7: the matcher picks the earlier-timestamped credit -/

/-- C7: with one unreconciled Debit and two unreconciled same-absolute-amount
Credits, both within the window, the matcher emits exactly one pair, linking
the Debit to the earlier-timestamped Credit. -/
theorem reconcile_picks_earliest_credit (d c1 c2 : Transaction) (days : Nat)
    (l : List Transaction) (hperm : l.Perm [d, c1, c2])
    (hd : d.type_ = TransactionType.Debit) (hc1 : c1.type_ = TransactionType.Credit)
    (hc2 : c2.type_ = TransactionType.Credit)
    (hmd : d.matched_id = none) (hm1 : c1.matched_id = none)
    (hm2 : c2.matched_id = none)
    (hsum1 : d.amount + c1.amount = 0) (hsum2 : d.amount + c2.amount = 0)
    (hid1 : d.id ≠ c1.id) (hid2 : d.id ≠ c2.id) (hid12 : c1.id ≠ c2.id)
    (hts : c1.timestamp < c2.timestamp)
    (hw1 : (numDays (c1.timestamp - d.timestamp)).natAbs ≤ days)
    (hw2 : (numDays (c2.timestamp - d.timestamp)).natAbs ≤ days) :
    reconcile_transactions l days = [⟨d.id, c1.id⟩] := by
  have hne : l ≠ [] := by
    intro hcon
    rw [hcon] at hperm
    exact absurd hperm.length_eq (by simp)
  have hcand : ∀ t ∈ l, t.matched_id = none := by
    intro t ht
    have := hperm.mem_iff.1 ht
    rcases List.mem_cons.1 this with rfl | h2
    · exact hmd
    · rcases List.mem_pair.1 h2 with rfl | rfl
      · exact hm1
      · exact hm2
  have hkey : ∀ t ∈ l, t.amount.natAbs = d.amount.natAbs := by
    intro t ht
    have := hperm.mem_iff.1 ht
    rcases List.mem_cons.1 this with rfl | h2
    · rfl
    · rcases List.mem_pair.1 h2 with rfl | rfl
      · have h : t.amount = -d.amount := by omega
        rw [h, Int.natAbs_neg]
      · have h : t.amount = -d.amount := by omega
        rw [h, Int.natAbs_neg]
  have hrec : reconcile_transactions l days = matchBucket l days :=
    reconcile_single_bucket hne hcand hkey
  have hwin1 : withinWindow d c1 days = true := by
    simp only [withinWindow, decide_eq_true_eq]
    exact hw1
  rcases sortByTimestamp_triple hperm hts with hs | hs | hs
  · rw [hrec, matchBucket_eval hs]
    exact matchLoop_triple_a hd hc1 hc2 hsum1 hid1 hwin1
  · rw [hrec, matchBucket_eval hs]
    exact matchLoop_triple_b hd hc1 hc2 hsum1 hid1 hwin1
  · rw [hrec, matchBucket_eval hs]
    exact matchLoop_triple_c hd hc1 hc2 hsum1 hid1 hwin1

/-- C7 witness: with two candidate credits three and five days out, the
matcher links the debit to the three-day (earlier) credit. -/
theorem reconcile_picks_earliest_credit_witness :
    txCreditW.timestamp < txCreditLate.timestamp ∧
      reconcile_transactions [txDebitW, txCreditW, txCreditLate] 60 =
        [⟨txDebitW.id, txCreditW.id⟩] :=
  ⟨by decide,
    reconcile_picks_earliest_credit txDebitW txCreditW txCreditLate 60
      [txDebitW, txCreditW, txCreditLate] (List.Perm.refl _) (by decide) (by decide)
      (by decide) (by decide) (by decide) (by decide) (by decide) (by decide)
      (by decide) (by decide) (by decide) (by decide) (by decide) (by decide)⟩

end CCTracker
